import Mathlib

/-!
Verification development for the ROACH1 SAO spectrometer backend
(`combiner.py`, `simulator.py`, `SAOclient.py`).

The Python data structures are embedded shallowly:

* a Python `dict` keyed by ints is an association list `List (Nat × α)`;
  `d[k] = v` is `updateAssoc` (replace in place if the key is present,
  append otherwise, exactly the observable behaviour of a `dict` update),
  `d[k]` with a default is `lookupD`, `d[k]` that may raise `KeyError`
  is `lookupA` returning an `Option`;
* the records put on the combiner queue by `SAOfwif.action` are `Msg`;
* `DataCombiner.combine_data` is a pure state transition on
  `CombinerState`; the composites it hands to `process_data` are
  appended to the `emitted` field (the Python messages also carry the
  constant entry `"type": "data"`, not modelled);
* `SAOclient.start_handler` is a state transition on `ClientState`
  returning `none` where the Python code would raise `KeyError`;
* unit names, times and spectra are `Nat`/`List Int` stand-ins for the
  strings, floats and numpy arrays of the source.
-/

namespace ROACH1

/-- A spectrum payload: the `data` entry of a queue message
(`None` for "new scan" messages, a list of samples for spectra). -/
abbrev Payload := Option (List Int)

/-- The `type` field of a message put on the combiner queue by
`SAOfwif.action`: `"spectrum"` or `"new scan"`. -/
inductive MsgT where
  | spectrum
  | newscan
deriving DecidableEq, Repr

/-- A message on the combiner input queue, as built in `SAOfwif.action`:
`{"type", "name", "time", "scan", "record", "data"}`. -/
structure Msg where
  typ : MsgT
  name : Nat
  time : Nat
  scan : Nat
  record : Nat
  data : Payload
deriving DecidableEq, Repr

/-- The composite handed to `process_data` in `DataCombiner.combine_data`:
`{"scan", "record", "time": this_time, "type": "data", "data": this_record}`. -/
structure Composite where
  scan : Nat
  record : Nat
  time : List (Nat × Nat)
  data : List (Nat × Payload)
deriving DecidableEq, Repr

/-- Python `d[k] = v` on a dict represented as an association list:
replace the value of the first matching key in place, append otherwise. -/
def updateAssoc {α : Type} : List (Nat × α) → Nat → α → List (Nat × α)
  | [], k, v => [(k, v)]
  | (k', v') :: t, k, v =>
      if k' = k then (k', v) :: t else (k', v') :: updateAssoc t k v

/-- Python `d[k]` where the caller knows a default (used for the
"create if needed" steps of `combine_data`). -/
def lookupD {α : Type} : List (Nat × α) → Nat → α → α
  | [], _, d => d
  | (k', v) :: t, k, d => if k' = k then v else lookupD t k d

/-- Python `d[k]` that raises `KeyError` when the key is absent. -/
def lookupA {α : Type} : List (Nat × α) → Nat → Option α
  | [], _ => none
  | (k', v) :: t, k => if k' = k then some v else lookupA t k

/-- The mutable state of a `DataCombiner`: `spectra_dict` and `timedata`
(nested dicts scan → record → DSP name), plus the trace of composites it
has handed to `process_data` (the successive `msg` arguments). -/
structure CombinerState where
  spectra_dict : List (Nat × List (Nat × List (Nat × Payload)))
  timedata : List (Nat × List (Nat × List (Nat × Nat)))
  emitted : List Composite

/-- `spectra_dict` and `timedata` start as empty dicts in
`DataCombiner.__init__`. -/
def DataCombiner.initState : CombinerState :=
  { spectra_dict := [], timedata := [], emitted := [] }

/-- `DataCombiner.combine_data`: on a `"spectrum"` message, create the
dict levels for `scan` and `record` if needed, store the data under the
DSP name, and if the record now holds as many contributions as
`len(self.dsplist)`, hand the composite to `process_data`.  Any other
message type is only logged. -/
def DataCombiner.combine_data (dsplist : List Nat) (st : CombinerState)
    (result : Msg) : CombinerState :=
  if result.typ = MsgT.spectrum then
    let scan := result.scan
    let record := result.record
    let scanDict := lookupD st.spectra_dict scan []
    let scanTime := lookupD st.timedata scan []
    let recDict := updateAssoc (lookupD scanDict record []) result.name result.data
    let recTime := updateAssoc (lookupD scanTime record []) result.name result.time
    let sd := updateAssoc st.spectra_dict scan (updateAssoc scanDict record recDict)
    let td := updateAssoc st.timedata scan (updateAssoc scanTime record recTime)
    if recDict.length = dsplist.length then
      { spectra_dict := sd, timedata := td,
        emitted := st.emitted ++ [⟨scan, record, recTime, recDict⟩] }
    else
      { spectra_dict := sd, timedata := td, emitted := st.emitted }
  else
    st

/-- Feed a list of queue messages through `combine_data` in arrival
order (the body of `DataCombiner.get_data`). -/
def runCombiner (dsplist : List Nat) (evs : List Msg) : CombinerState :=
  evs.foldl (DataCombiner.combine_data dsplist) DataCombiner.initState

/-- The pending aggregate `self.spectra_dict[s][r]` (empty when absent). -/
def agg (st : CombinerState) (s r : Nat) : List (Nat × Payload) :=
  lookupD (lookupD st.spectra_dict s []) r []

/-- The spectrum messages for key `(s, r)` in an event list. -/
def keyEvents (evs : List Msg) (s r : Nat) : List Msg :=
  evs.filter fun e => decide (e.typ = MsgT.spectrum) && e.scan == s && e.record == r

/-- How many composites for key `(s, r)` the combiner has handed to
`process_data`. -/
def countEmitted (st : CombinerState) (s r : Nat) : Nat :=
  (st.emitted.filter fun m => m.scan == s && m.record == r).length

/-- The `data` field of the most recently processed spectrum message for
key `(s, r)` coming from unit `u`, if any. -/
def lastDataFor (evs : List Msg) (s r u : Nat) : Option Payload :=
  (keyEvents evs s r).foldl (fun a e => if e.name = u then some e.data else a) none

/-- `DataCombiner.__init__(dsplist)`: a falsy `dsplist` (absent, `None`
or `[]`) raises `RuntimeError` before any state is set up; otherwise the
combiner records the list and starts with empty dicts. -/
def DataCombiner.init (dsplist : Option (List Nat)) :
    Except String (List Nat × CombinerState) :=
  match dsplist with
  | some l =>
      if l.isEmpty then
        Except.error "DataCombiner needs a list of processors to service"
      else
        Except.ok (l, DataCombiner.initState)
  | none => Except.error "DataCombiner needs a list of processors to service"

/-! ### `SAOfwif` acquisition units (`simulator.py`) -/

/-- The per-unit state mutated by `SAObackend.start` and
`SAOfwif.action`: the scan number, the accumulation counter
`spectrum_count`, the scan length `max_count`, and whether the reader
thread is suspended. -/
structure FwifState where
  name : Nat
  scan : Nat
  spectrum_count : Nat
  max_count : Nat
  suspended : Bool
deriving DecidableEq, Repr

/-- `SAOfwif.action`: increment `spectrum_count`; if it now exceeds
`max_count`, suspend the thread, increment `scan`, reset the counter and
put a `"new scan"` message (with the just-incremented scan) on the
combiner queue; otherwise acquire one accumulation (`accum`, the result
of the blocking `get_next_spectrum()` call) and put a `"spectrum"`
message on the queue.  `now` is the `nowgmt()` timestamp taken on
entry. -/
def SAOfwif.action (now : Nat) (accum : List Int) (st : FwifState) :
    FwifState × Msg :=
  let count := st.spectrum_count + 1
  if st.max_count < count then
    let newscan := st.scan + 1
    ({ st with suspended := true, scan := newscan, spectrum_count := 0 },
     { typ := MsgT.newscan, name := st.name, time := now,
       scan := newscan, record := 0, data := none })
  else
    ({ st with spectrum_count := count },
     { typ := MsgT.spectrum, name := st.name, time := now,
       scan := st.scan, record := count, data := some accum })

/-- The messages produced by `n` consecutive invocations of `action` on
one unit, with timestamp and accumulation streams `times` and `pays`. -/
def runActions (times : Nat → Nat) (pays : Nat → List Int)
    (st : FwifState) : Nat → List Msg
  | 0 => []
  | n + 1 =>
      (SAOfwif.action (times 0) (pays 0) st).2 ::
        runActions (fun i => times (i + 1)) (fun i => pays (i + 1))
          (SAOfwif.action (times 0) (pays 0) st).1 n

/-- The effect of `SAObackend.start(n_accums, integration_time)` on one
unit: set the scan to 1 if it is still 0, set `max_count`, reset
`spectrum_count` to 0, and resume the reader thread via
`sync_start()`. -/
def SAObackend.start (n_accums : Nat) (st : FwifState) : FwifState :=
  let st1 := if st.scan = 0 then { st with scan := 1 } else st
  { st1 with max_count := n_accums, spectrum_count := 0, suspended := false }

/-- `SAObackend.start` loops over every ROACH of the backend. -/
def SAObackend.startAll (n_accums : Nat) (roaches : List FwifState) :
    List FwifState :=
  roaches.map (SAObackend.start n_accums)

/-! ### The notifier (`process_data`) -/

/-- Levels of the log calls made by `process_data`. -/
inductive LogLevel where
  | debug
  | info
  | error
deriving DecidableEq, Repr

/-- What one `process_data` call did besides returning: which callbacks
it invoked (with the composite passed), what it logged, and whether it
raised. -/
structure NotifyEffect where
  invoked : List (Nat × Composite)
  logged : List LogLevel
  raised : Bool
deriving DecidableEq, Repr

/-- `DataCombiner.process_data` (base class): log at info level that no
destination is specified and drop the composite. -/
def DataCombiner.process_data (st : CombinerState) (msg : Composite) :
    CombinerState × NotifyEffect :=
  (st, { invoked := [], logged := [LogLevel.info], raised := false })

/-- `RoachCombiner.process_data`: fetch the subscriber callback from
`self.parent.start.cb` (here the `callback` argument); if one is
registered, claim Pyro ownership and invoke it with the composite,
otherwise log at error level and drop the composite. -/
def RoachCombiner.process_data (callback : Option Nat) (st : CombinerState)
    (msg : Composite) : CombinerState × NotifyEffect :=
  match callback with
  | some cb =>
      (st, { invoked := [(cb, msg)],
             logged := [LogLevel.debug, LogLevel.debug, LogLevel.debug],
             raised := false })
  | none =>
      (st, { invoked := [],
             logged := [LogLevel.debug, LogLevel.debug, LogLevel.error],
             raised := false })

/-! ### The consumer-side scan tracker (`SAOclient`) -/

/-- The `type` field of the callback messages handled by
`SAOclient.start_handler`: `"done"`, `"record"`, or anything else. -/
inductive CTyp where
  | done
  | record
  | other
deriving DecidableEq, Repr

/-- A callback message received by `SAOclient.start_handler`. -/
structure CEvent where
  name : Nat
  scan : Nat
  record : Nat
  time : Nat
  typ : CTyp
deriving DecidableEq, Repr

/-- One entry of `SAOclient.scans`: the dict
`{"done": ..., "scan": ..., "record": ..., "time": ...}` for one unit
(`none` models a key not yet present; the Python `done` value is the
truthy string `"done"` or `False`, modelled by its truthiness). -/
structure UnitScanState where
  done : Bool
  scan : Option Nat
  record : Option Nat
  time : Option Nat
deriving DecidableEq, Repr

/-- The client state touched by `start_handler`: the per-unit `scans`
dict and the `combinerQueue`. -/
structure ClientState where
  scans : List (Nat × UnitScanState)
  combinerQueue : List CEvent
deriving DecidableEq, Repr

/-- `SAOclient.__init__`: `scans[name] = {"done": False, "scan": None,
"record": None}` for every configured unit, and an empty combiner
queue. -/
def SAOclient.init (names : List Nat) : ClientState :=
  { scans := names.map fun n => (n, ⟨false, none, none, none⟩),
    combinerQueue := [] }

/-- `SAOclient.start_handler`: store the message's scan under its unit;
on `"done"` set the unit's done flag (to the truthy string `"done"`) and
its time; on `"record"` clear the done flag and put the message on the
combiner queue; other types update only the scan.  `none` models the
`KeyError` raised when the unit is not in `scans`. -/
def SAOclient.start_handler (st : ClientState) (res : CEvent) :
    Option ClientState :=
  match lookupA st.scans res.name with
  | none => none
  | some u =>
      let u1 := { u with scan := some res.scan }
      match res.typ with
      | CTyp.done =>
          let u2 := { u1 with done := true, time := some res.time }
          some { st with scans := updateAssoc st.scans res.name u2 }
      | CTyp.record =>
          let u2 := { u1 with done := false }
          some { scans := updateAssoc st.scans res.name u2,
                 combinerQueue := st.combinerQueue ++ [res] }
      | CTyp.other =>
          some { st with scans := updateAssoc st.scans res.name u1 }

/-- `SAOclient.scan_finished`: `all` of the units' done flags. -/
def SAOclient.scan_finished (st : ClientState) : Bool :=
  st.scans.all fun p => p.2.done

/-- Feed a list of callback messages through `start_handler` in order. -/
def processClient (st : ClientState) : List CEvent → Option ClientState
  | [] => some st
  | e :: t =>
      match SAOclient.start_handler st e with
      | none => none
      | some st' => processClient st' t

/-- The `type` of the last callback message naming unit `u`, if any. -/
def lastCTyp (evs : List CEvent) (u : Nat) : Option CTyp :=
  evs.foldl (fun a e => if e.name = u then some e.typ else a) none

/-- The value of one unit's done flag after `start_handler` has
processed a list of callback messages, starting from flag `b`. -/
def doneAfter (b : Bool) (evs : List CEvent) (u : Nat) : Bool :=
  evs.foldl
    (fun acc e =>
      if e.name = u then
        match e.typ with
        | CTyp.done => true
        | CTyp.record => false
        | CTyp.other => acc
      else acc) b

/-- Folding the per-unit dict update of `combine_data` for one fixed key
over a list of spectrum messages, starting from aggregate `l`. -/
def foldAssoc (l : List (Nat × Payload)) (es : List Msg) : List (Nat × Payload) :=
  es.foldl (fun a e => updateAssoc a e.name e.data) l

/-- How many events of `es`, processed in order from the per-key
aggregate `l`, leave the aggregate with exactly `N` entries — each such
event is one `process_data` handoff in `combine_data`. -/
def emitsForAux (N : Nat) (l : List (Nat × Payload)) : List Msg → Nat
  | [] => 0
  | e :: es =>
      let l' := updateAssoc l e.name e.data
      (if l'.length = N then 1 else 0) + emitsForAux N l' es

/-! ### Association-list lemmas -/

section AssocLemmas
variable {α : Type}

theorem lookupD_updateAssoc_self (l : List (Nat × α)) (k : Nat) (v d : α) :
    lookupD (updateAssoc l k v) k d = v := by
  induction l with
  | nil => simp [updateAssoc, lookupD]
  | cons p t ih =>
      by_cases h : p.1 = k <;> simp [updateAssoc, lookupD, h, ih]

theorem lookupD_updateAssoc_ne (l : List (Nat × α)) {k k' : Nat} (v d : α)
    (h : k' ≠ k) : lookupD (updateAssoc l k v) k' d = lookupD l k' d := by
  have hkk : ¬ (k = k') := fun he => h he.symm
  induction l with
  | nil => simp [updateAssoc, lookupD, hkk]
  | cons p t ih =>
      by_cases hp : p.1 = k
      · have hp' : ¬ (p.1 = k') := fun he => hkk (hp ▸ he)
        simp [updateAssoc, lookupD, hp, hp', hkk]
      · by_cases hp' : p.1 = k'
        · simp [updateAssoc, lookupD, hp, hp', h, hkk]
        · simp [updateAssoc, lookupD, hp, hp', ih]

theorem lookupA_updateAssoc_self (l : List (Nat × α)) (k : Nat) (v : α) :
    lookupA (updateAssoc l k v) k = some v := by
  induction l with
  | nil => simp [updateAssoc, lookupA]
  | cons p t ih =>
      by_cases h : p.1 = k <;> simp [updateAssoc, lookupA, h, ih]

theorem lookupA_updateAssoc_ne (l : List (Nat × α)) {k k' : Nat} (v : α)
    (h : k' ≠ k) : lookupA (updateAssoc l k v) k' = lookupA l k' := by
  have hkk : ¬ (k = k') := fun he => h he.symm
  induction l with
  | nil => simp [updateAssoc, lookupA, hkk]
  | cons p t ih =>
      by_cases hp : p.1 = k
      · have hp' : ¬ (p.1 = k') := fun he => hkk (hp ▸ he)
        simp [updateAssoc, lookupA, hp, hp', hkk]
      · by_cases hp' : p.1 = k'
        · simp [updateAssoc, lookupA, hp, hp', h, hkk]
        · simp [updateAssoc, lookupA, hp, hp', ih]

theorem keys_updateAssoc (l : List (Nat × α)) (k : Nat) (v : α) :
    (updateAssoc l k v).map Prod.fst =
      if k ∈ l.map Prod.fst then l.map Prod.fst else l.map Prod.fst ++ [k] := by
  induction l with
  | nil => simp [updateAssoc]
  | cons p t ih =>
      by_cases h : p.1 = k
      · simp [updateAssoc, h]
      · simp only [updateAssoc, if_neg h, List.map_cons, ih]
        have hne : ¬ (k = p.1) := fun hk => h hk.symm
        by_cases hm : k ∈ t.map Prod.fst <;>
          simp [List.mem_cons, hne, hm]

theorem length_updateAssoc_mem (l : List (Nat × α)) (k : Nat) (v : α)
    (h : k ∈ l.map Prod.fst) : (updateAssoc l k v).length = l.length := by
  have hk := keys_updateAssoc l k v
  rw [if_pos h] at hk
  have h1 : ((updateAssoc l k v).map Prod.fst).length = (l.map Prod.fst).length := by
    rw [hk]
  simpa using h1

theorem length_updateAssoc_not_mem (l : List (Nat × α)) (k : Nat) (v : α)
    (h : k ∉ l.map Prod.fst) : (updateAssoc l k v).length = l.length + 1 := by
  have hk := keys_updateAssoc l k v
  rw [if_neg h] at hk
  have h1 : ((updateAssoc l k v).map Prod.fst).length
      = (l.map Prod.fst ++ [k]).length := by rw [hk]
  simpa using h1

theorem nodupKeys_updateAssoc (l : List (Nat × α)) (k : Nat) (v : α)
    (h : (l.map Prod.fst).Nodup) : ((updateAssoc l k v).map Prod.fst).Nodup := by
  rw [keys_updateAssoc]
  by_cases hm : k ∈ l.map Prod.fst
  · rw [if_pos hm]
    exact h
  · rw [if_neg hm]
    refine List.Nodup.append h (List.nodup_singleton k) ?_
    intro a ha hb
    rw [List.mem_singleton] at hb
    exact hm (hb ▸ ha)

theorem mem_keys_updateAssoc (l : List (Nat × α)) (k : Nat) (v : α)
    {x : Nat} (h : x ∈ (updateAssoc l k v).map Prod.fst) :
    x ∈ l.map Prod.fst ∨ x = k := by
  rw [keys_updateAssoc] at h
  by_cases hm : k ∈ l.map Prod.fst
  · rw [if_pos hm] at h
    exact Or.inl h
  · rw [if_neg hm] at h
    rcases List.mem_append.mp h with h1 | h1
    · exact Or.inl h1
    · exact Or.inr (by simpa using h1)

theorem filter_fst_eq_nil_of_not_mem (l : List (Nat × α)) {k : Nat}
    (h : k ∉ l.map Prod.fst) : l.filter (fun p => p.1 == k) = [] := by
  induction l with
  | nil => rfl
  | cons p t ih =>
      rw [List.map_cons, List.mem_cons, not_or] at h
      have hne : (p.1 == k) = false := by
        have h1 : ¬ (p.1 = k) := fun he => h.1 he.symm
        simpa using h1
      simp [List.filter_cons, hne, ih h.2]

theorem filter_fst_updateAssoc_self (l : List (Nat × α)) (k : Nat) (v : α)
    (h : (l.map Prod.fst).Nodup) :
    (updateAssoc l k v).filter (fun p => p.1 == k) = [(k, v)] := by
  induction l with
  | nil => simp [updateAssoc]
  | cons p t ih =>
      rw [List.map_cons, List.nodup_cons] at h
      by_cases hp : p.1 = k
      · have hnm : k ∉ t.map Prod.fst := hp ▸ h.1
        have hb : (p.1 == k) = true := by simpa using hp
        simp [updateAssoc, hp, List.filter_cons, hb,
              filter_fst_eq_nil_of_not_mem t hnm]
      · have hb : (p.1 == k) = false := by simpa using hp
        simp [updateAssoc, hp, List.filter_cons, hb, ih h.2]

theorem filter_fst_updateAssoc_ne (l : List (Nat × α)) {k k' : Nat} (v : α)
    (h : k' ≠ k) :
    (updateAssoc l k v).filter (fun p => p.1 == k')
      = l.filter (fun p => p.1 == k') := by
  have hkk : ¬ (k = k') := fun he => h he.symm
  have hbk : (k == k') = false := by simpa using hkk
  induction l with
  | nil => simp [updateAssoc, List.filter_cons, hbk]
  | cons p t ih =>
      by_cases hp : p.1 = k
      · have hb : (p.1 == k') = false := by
          have h1 : ¬ (p.1 = k') := fun he => hkk (hp ▸ he)
          simpa using h1
        simp [updateAssoc, hp, List.filter_cons, hb, hkk]
      · simp only [updateAssoc, if_neg hp, List.filter_cons, ih]

theorem lookupA_eq_some_mem {l : List (Nat × α)} {k : Nat} {v : α}
    (h : lookupA l k = some v) : (k, v) ∈ l := by
  induction l with
  | nil => simp [lookupA] at h
  | cons p t ih =>
      by_cases hp : p.1 = k
      · rw [lookupA, if_pos hp] at h
        have hv : p.2 = v := Option.some.inj h
        exact List.mem_cons.mpr (Or.inl (by cases p; simp_all))
      · rw [lookupA, if_neg hp] at h
        exact List.mem_cons.mpr (Or.inr (ih h))

theorem lookupA_of_mem_keys {l : List (Nat × α)} {k : Nat}
    (h : k ∈ l.map Prod.fst) : ∃ v, lookupA l k = some v := by
  induction l with
  | nil => simp at h
  | cons p t ih =>
      by_cases hp : p.1 = k
      · exact ⟨p.2, by rw [lookupA, if_pos hp]⟩
      · have hk : k ∈ t.map Prod.fst := by
          rw [List.map_cons, List.mem_cons] at h
          rcases h with h1 | h1
          · exact absurd h1.symm hp
          · exact h1
        rcases ih hk with ⟨v, hv⟩
        exact ⟨v, by rw [lookupA, if_neg hp, hv]⟩

theorem lookupA_eq_of_mem_nodup {l : List (Nat × α)} {p : Nat × α}
    (hnd : (l.map Prod.fst).Nodup) (h : p ∈ l) : lookupA l p.1 = some p.2 := by
  induction l with
  | nil => simp at h
  | cons q t ih =>
      rw [List.map_cons, List.nodup_cons] at hnd
      rcases List.mem_cons.mp h with h1 | h1
      · subst h1
        rw [lookupA, if_pos rfl]
      · have hne : q.1 ≠ p.1 := by
          intro he
          exact hnd.1 (he ▸ List.mem_map_of_mem Prod.fst h1)
        rw [lookupA, if_neg hne, ih hnd.2 h1]
end AssocLemmas

/-! ### Per-event behaviour of `combine_data` -/

section CombinerStep

theorem combine_data_nonspectrum (d : List Nat) (st : CombinerState) (e : Msg)
    (h : e.typ ≠ MsgT.spectrum) : DataCombiner.combine_data d st e = st := by
  unfold DataCombiner.combine_data
  rw [if_neg h]

theorem agg_combine_data_self (d : List Nat) (st : CombinerState) (e : Msg)
    (h : e.typ = MsgT.spectrum) :
    agg (DataCombiner.combine_data d st e) e.scan e.record
      = updateAssoc (agg st e.scan e.record) e.name e.data := by
  unfold DataCombiner.combine_data
  rw [if_pos h]
  dsimp only
  split <;> simp [agg, lookupD_updateAssoc_self]

theorem agg_combine_data_ne (d : List Nat) (st : CombinerState) (e : Msg)
    (s r : Nat) (h : e.typ = MsgT.spectrum) (hne : s ≠ e.scan ∨ r ≠ e.record) :
    agg (DataCombiner.combine_data d st e) s r = agg st s r := by
  unfold DataCombiner.combine_data
  rw [if_pos h]
  dsimp only
  rcases hne with hs | hr
  · split <;> simp [agg, lookupD_updateAssoc_ne _ _ _ hs]
  · by_cases hs : s = e.scan
    · subst hs
      split <;>
        simp [agg, lookupD_updateAssoc_self, lookupD_updateAssoc_ne _ _ _ hr]
    · split <;> simp [agg, lookupD_updateAssoc_ne _ _ _ hs]

theorem emitted_combine_data (d : List Nat) (st : CombinerState) (e : Msg)
    (h : e.typ = MsgT.spectrum) :
    (DataCombiner.combine_data d st e).emitted
      = st.emitted ++
        (if (updateAssoc (agg st e.scan e.record) e.name e.data).length = d.length
         then [⟨e.scan, e.record,
               updateAssoc (lookupD (lookupD st.timedata e.scan []) e.record [])
                 e.name e.time,
               updateAssoc (agg st e.scan e.record) e.name e.data⟩]
         else []) := by
  unfold DataCombiner.combine_data
  rw [if_pos h]
  by_cases hg : (updateAssoc (agg st e.scan e.record) e.name e.data).length
      = d.length
  · simp only [agg] at hg
    simp [agg, hg]
  · simp only [agg] at hg
    simp [agg, hg]

end CombinerStep

/-! ### Behaviour of a whole combiner run, per key -/

section CombinerRun

theorem foldAssoc_nil (l : List (Nat × Payload)) : foldAssoc l [] = l := rfl

theorem foldAssoc_cons (l : List (Nat × Payload)) (e : Msg) (es : List Msg) :
    foldAssoc l (e :: es) = foldAssoc (updateAssoc l e.name e.data) es := rfl

theorem foldAssoc_append (l : List (Nat × Payload)) (es : List Msg) (e : Msg) :
    foldAssoc l (es ++ [e]) = updateAssoc (foldAssoc l es) e.name e.data := by
  simp [foldAssoc, List.foldl_append]

theorem keyEvents_append (evs evs' : List Msg) (s r : Nat) :
    keyEvents (evs ++ evs') s r = keyEvents evs s r ++ keyEvents evs' s r := by
  simp [keyEvents, List.filter_append]

theorem keyEvents_singleton_pos (e : Msg) (hsp : e.typ = MsgT.spectrum) :
    keyEvents [e] e.scan e.record = [e] := by
  simp [keyEvents, hsp]

theorem keyEvents_singleton_neg (e : Msg) (s r : Nat)
    (h : e.typ ≠ MsgT.spectrum ∨ s ≠ e.scan ∨ r ≠ e.record) :
    keyEvents [e] s r = [] := by
  rcases h with h1 | h1 | h1
  · simp [keyEvents, h1]
  · have h2 : ¬ (e.scan = s) := fun he => h1 he.symm
    simp [keyEvents, h2]
  · have h2 : ¬ (e.record = r) := fun he => h1 he.symm
    simp [keyEvents, h2]

theorem runCombiner_append (d : List Nat) (evs : List Msg) (e : Msg) :
    runCombiner d (evs ++ [e])
      = DataCombiner.combine_data d (runCombiner d evs) e := by
  simp [runCombiner, List.foldl_append]

theorem agg_runCombiner (d : List Nat) (evs : List Msg) (s r : Nat) :
    agg (runCombiner d evs) s r = foldAssoc [] (keyEvents evs s r) := by
  induction evs using List.reverseRecOn with
  | nil => rfl
  | append_singleton evs e ih =>
      rw [runCombiner_append, keyEvents_append]
      by_cases hsp : e.typ = MsgT.spectrum
      · by_cases hs : s = e.scan
        · by_cases hr : r = e.record
          · subst hs; subst hr
            rw [keyEvents_singleton_pos e hsp, foldAssoc_append,
                agg_combine_data_self d _ e hsp, ih]
          · rw [keyEvents_singleton_neg e s r (Or.inr (Or.inr hr)),
                List.append_nil,
                agg_combine_data_ne d _ e s r hsp (Or.inr hr), ih]
        · rw [keyEvents_singleton_neg e s r (Or.inr (Or.inl hs)),
              List.append_nil,
              agg_combine_data_ne d _ e s r hsp (Or.inl hs), ih]
      · rw [keyEvents_singleton_neg e s r (Or.inl hsp), List.append_nil,
            combine_data_nonspectrum d _ e hsp, ih]

theorem emitsForAux_append (N : Nat) (l : List (Nat × Payload))
    (es : List Msg) (e : Msg) :
    emitsForAux N l (es ++ [e])
      = emitsForAux N l es
        + (if (updateAssoc (foldAssoc l es) e.name e.data).length = N
           then 1 else 0) := by
  induction es generalizing l with
  | nil => simp [emitsForAux, foldAssoc_nil, Nat.add_comm]
  | cons e' es ih =>
      simp only [List.cons_append, emitsForAux, List.append_eq, ih,
                 foldAssoc_cons, Nat.add_assoc]

theorem countEmitted_runCombiner (d : List Nat) (evs : List Msg) (s r : Nat) :
    countEmitted (runCombiner d evs) s r
      = emitsForAux d.length [] (keyEvents evs s r) := by
  induction evs using List.reverseRecOn with
  | nil => rfl
  | append_singleton evs e ih =>
      rw [runCombiner_append, keyEvents_append]
      by_cases hsp : e.typ = MsgT.spectrum
      · have hcd := emitted_combine_data d (runCombiner d evs) e hsp
        by_cases hs : s = e.scan
        · by_cases hr : r = e.record
          · subst hs; subst hr
            rw [keyEvents_singleton_pos e hsp, emitsForAux_append,
                countEmitted, hcd, List.filter_append, List.length_append,
                ← countEmitted, ih, agg_runCombiner]
            by_cases hg : (updateAssoc (foldAssoc [] (keyEvents evs e.scan e.record))
                e.name e.data).length = d.length
            · simp [hg]
            · simp [hg]
          · rw [keyEvents_singleton_neg e s r (Or.inr (Or.inr hr)),
                List.append_nil, countEmitted, hcd, List.filter_append,
                List.length_append, ← countEmitted, ih]
            have hb : (e.record == r) = false := by
              simpa using fun he => hr he.symm
            split <;> simp [hb]
        · rw [keyEvents_singleton_neg e s r (Or.inr (Or.inl hs)),
              List.append_nil, countEmitted, hcd, List.filter_append,
              List.length_append, ← countEmitted, ih]
          have hb : (e.scan == s) = false := by
            simpa using fun he => hs he.symm
          split <;> simp [hb]
      · rw [keyEvents_singleton_neg e s r (Or.inl hsp), List.append_nil,
            combine_data_nonspectrum d _ e hsp, ih]

end CombinerRun

/-! ### Properties of the per-key aggregate fold -/

section AggFold

theorem foldAssoc_keys_nodup (es : List Msg) (l : List (Nat × Payload))
    (h : (l.map Prod.fst).Nodup) : ((foldAssoc l es).map Prod.fst).Nodup := by
  induction es generalizing l with
  | nil => simpa [foldAssoc_nil] using h
  | cons e es ih =>
      rw [foldAssoc_cons]
      exact ih _ (nodupKeys_updateAssoc _ _ _ h)

theorem mem_keys_foldAssoc (es : List Msg) (l : List (Nat × Payload)) {k : Nat}
    (h : k ∈ (foldAssoc l es).map Prod.fst) :
    k ∈ l.map Prod.fst ∨ k ∈ es.map Msg.name := by
  induction es generalizing l with
  | nil => exact Or.inl (by simpa [foldAssoc_nil] using h)
  | cons e es ih =>
      rw [foldAssoc_cons] at h
      rcases ih _ h with h1 | h1
      · rcases mem_keys_updateAssoc _ _ _ h1 with h2 | h2
        · exact Or.inl h2
        · exact Or.inr (by simp [h2])
      · exact Or.inr (by simp [h1])

theorem lookupA_foldAssoc (es : List Msg) (l : List (Nat × Payload)) (u : Nat) :
    lookupA (foldAssoc l es) u
      = es.foldl (fun a e => if e.name = u then some e.data else a)
          (lookupA l u) := by
  induction es generalizing l with
  | nil => rfl
  | cons e es ih =>
      rw [foldAssoc_cons, List.foldl_cons, ih]
      by_cases he : e.name = u
      · rw [if_pos he, ← he, lookupA_updateAssoc_self]
      · rw [if_neg he, lookupA_updateAssoc_ne l e.data (fun h2 => he h2.symm)]

theorem filter_fst_eq_match_lookupA {α : Type} (l : List (Nat × α)) (u : Nat)
    (h : (l.map Prod.fst).Nodup) :
    l.filter (fun p => p.1 == u)
      = (match lookupA l u with
         | some v => [(u, v)]
         | none => []) := by
  induction l with
  | nil => rfl
  | cons p t ih =>
      rw [List.map_cons, List.nodup_cons] at h
      by_cases hp : p.1 = u
      · subst hp
        have hnm : p.1 ∉ t.map Prod.fst := h.1
        rw [lookupA, if_pos rfl]
        simp [List.filter_cons, filter_fst_eq_nil_of_not_mem t hnm]
      · have hb : (p.1 == u) = false := by simpa using hp
        rw [lookupA, if_neg hp]
        simp [List.filter_cons, hb, ih h.2]

theorem emitsForAux_of_nodup_names (N : Nat) (es : List Msg)
    (l : List (Nat × Payload)) (hn : (es.map Msg.name).Nodup)
    (hf : ∀ e ∈ es, e.name ∉ l.map Prod.fst) :
    emitsForAux N l es
      = if l.length < N ∧ N ≤ l.length + es.length then 1 else 0 := by
  induction es generalizing l with
  | nil =>
      rw [show emitsForAux N l [] = 0 from rfl, List.length_nil,
          if_neg (by omega)]
  | cons e es ih =>
      rw [List.map_cons, List.nodup_cons] at hn
      have hfe : e.name ∉ l.map Prod.fst := hf e (List.mem_cons_self e es)
      have hlen : (updateAssoc l e.name e.data).length = l.length + 1 :=
        length_updateAssoc_not_mem _ _ _ hfe
      have hf' : ∀ e' ∈ es, e'.name ∉ (updateAssoc l e.name e.data).map Prod.fst := by
        intro e' he' hmem
        rcases mem_keys_updateAssoc _ _ _ hmem with h1 | h1
        · exact hf e' (List.mem_cons_of_mem e he') h1
        · exact hn.1 (h1 ▸ List.mem_map_of_mem Msg.name he')
      simp only [emitsForAux, List.length_cons]
      rw [ih _ hn.2 hf', hlen]
      by_cases hN : l.length + 1 = N
      · rw [if_pos hN, if_neg (by omega), if_pos (by omega)]
      · rw [if_neg hN]
        by_cases hc : l.length + 1 < N ∧ N ≤ l.length + 1 + es.length
        · rw [if_pos hc, if_pos (by omega)]
        · rw [if_neg hc, if_neg (by omega)]

theorem nodup_length_le_dedup {l S : List Nat} (hl : l.Nodup)
    (hsub : ∀ x ∈ l, x ∈ S) : l.length ≤ S.dedup.length := by
  classical
  have h1 : l.length = l.toFinset.card := (List.toFinset_card_of_nodup hl).symm
  have h3 : S.dedup.toFinset = S.toFinset :=
    List.toFinset.ext fun x => List.mem_dedup
  have h2 : S.dedup.length = S.toFinset.card := by
    rw [← h3]
    exact (List.toFinset_card_of_nodup (List.nodup_dedup S)).symm
  rw [h1, h2]
  apply Finset.card_le_card
  intro x hx
  rw [List.mem_toFinset] at hx ⊢
  exact hsub x hx

theorem emitsForAux_eq_zero_of_few (N : Nat) (S : List Nat) (es : List Msg)
    (l : List (Nat × Payload)) (hnd : (l.map Prod.fst).Nodup)
    (hsub : ∀ k ∈ l.map Prod.fst, k ∈ S) (hes : ∀ e ∈ es, e.name ∈ S)
    (hlt : S.dedup.length < N) : emitsForAux N l es = 0 := by
  induction es generalizing l with
  | nil => rfl
  | cons e es ih =>
      have hnd' := nodupKeys_updateAssoc l e.name e.data hnd
      have hsub' : ∀ k ∈ (updateAssoc l e.name e.data).map Prod.fst, k ∈ S := by
        intro k hk
        rcases mem_keys_updateAssoc _ _ _ hk with h1 | h1
        · exact hsub k h1
        · exact h1 ▸ hes e (List.mem_cons_self e es)
      have hlen : (updateAssoc l e.name e.data).length < N := by
        have hle : ((updateAssoc l e.name e.data).map Prod.fst).length
            ≤ S.dedup.length := nodup_length_le_dedup hnd' hsub'
        have heq : ((updateAssoc l e.name e.data).map Prod.fst).length
            = (updateAssoc l e.name e.data).length := List.length_map _ _
        omega
      simp only [emitsForAux]
      rw [if_neg (by omega),
          ih _ hnd' hsub' (fun e' he' => hes e' (List.mem_cons_of_mem e he'))]

theorem count_map_name (es : List Msg) (u : Nat) :
    (es.map Msg.name).count u = (es.filter (fun e => e.name == u)).length := by
  induction es with
  | nil => rfl
  | cons e es ih =>
      by_cases he : e.name = u
      · have hb : (e.name == u) = true := by simpa using he
        simp [List.count_cons, List.filter_cons, hb, he, ih]
      · have hb : (e.name == u) = false := by simpa using he
        simp [List.count_cons, List.filter_cons, hb, he, ih]

theorem emitted_spec (d : List Nat) (evs : List Msg) :
    ∀ m ∈ (runCombiner d evs).emitted,
      m.data.length = d.length ∧ (m.data.map Prod.fst).Nodup ∧
      ∀ k ∈ m.data.map Prod.fst,
        k ∈ (keyEvents evs m.scan m.record).map Msg.name := by
  induction evs using List.reverseRecOn with
  | nil =>
      intro m hm
      simp [runCombiner, DataCombiner.initState] at hm
  | append_singleton evs e ih =>
      intro m hm
      rw [runCombiner_append] at hm
      by_cases hsp : e.typ = MsgT.spectrum
      · rw [emitted_combine_data d _ e hsp] at hm
        rcases List.mem_append.mp hm with hold | hnew
        · obtain ⟨h1, h2, h3⟩ := ih m hold
          refine ⟨h1, h2, ?_⟩
          intro k hk
          rw [keyEvents_append, List.map_append]
          exact List.mem_append_left _ (h3 k hk)
        · by_cases hg : (updateAssoc (agg (runCombiner d evs) e.scan e.record)
              e.name e.data).length = d.length
          · rw [if_pos hg, List.mem_singleton] at hnew
            subst hnew
            refine ⟨hg, ?_, ?_⟩
            · have h0 : ((agg (runCombiner d evs) e.scan e.record).map
                  Prod.fst).Nodup := by
                rw [agg_runCombiner]
                exact foldAssoc_keys_nodup _ _ (by simp)
              exact nodupKeys_updateAssoc _ _ _ h0
            · intro k hk
              rcases mem_keys_updateAssoc _ _ _ hk with h1 | h1
              · have h2 : k ∈ (keyEvents evs e.scan e.record).map Msg.name := by
                  rw [agg_runCombiner] at h1
                  rcases mem_keys_foldAssoc _ _ h1 with h3 | h3
                  · simp at h3
                  · exact h3
                rw [keyEvents_append, List.map_append]
                exact List.mem_append_left _ h2
              · rw [keyEvents_append, List.map_append]
                refine List.mem_append_right _ ?_
                rw [keyEvents_singleton_pos e hsp]
                simp [h1]
          · rw [if_neg hg] at hnew
            simp at hnew
      · rw [combine_data_nonspectrum d _ e hsp] at hm
        obtain ⟨h1, h2, h3⟩ := ih m hm
        refine ⟨h1, h2, ?_⟩
        intro k hk
        rw [keyEvents_append, List.map_append]
        exact List.mem_append_left _ (h3 k hk)

end AggFold

/-! ### Behaviour of the acquisition units -/

section FwifLemmas

theorem action_boundary_eq (now : Nat) (accum : List Int) (st : FwifState)
    (h : st.max_count < st.spectrum_count + 1) :
    SAOfwif.action now accum st
      = ({ st with suspended := true, scan := st.scan + 1, spectrum_count := 0 },
         { typ := MsgT.newscan, name := st.name, time := now,
           scan := st.scan + 1, record := 0, data := none }) := by
  unfold SAOfwif.action
  dsimp only
  rw [if_pos h]

theorem action_spectrum_eq (now : Nat) (accum : List Int) (st : FwifState)
    (h : ¬ st.max_count < st.spectrum_count + 1) :
    SAOfwif.action now accum st
      = ({ st with spectrum_count := st.spectrum_count + 1 },
         { typ := MsgT.spectrum, name := st.name, time := now,
           scan := st.scan, record := st.spectrum_count + 1,
           data := some accum }) := by
  unfold SAOfwif.action
  dsimp only
  rw [if_neg h]

theorem runActions_max_zero (k : Nat) :
    ∀ (times : Nat → Nat) (pays : Nat → List Int) (st : FwifState),
      st.max_count = 0 →
      ∀ m ∈ runActions times pays st k, m.typ = MsgT.newscan := by
  induction k with
  | zero =>
      intro _ _ _ _ m hm
      simp [runActions] at hm
  | succ k ih =>
      intro times pays st h m hm
      rw [runActions] at hm
      have hb : st.max_count < st.spectrum_count + 1 := by omega
      rw [action_boundary_eq (times 0) (pays 0) st hb] at hm
      rcases List.mem_cons.mp hm with h1 | h1
      · subst h1
        rfl
      · exact ih _ _ _ (by simpa using h) m h1

theorem find_spectrum_runActions (times : Nat → Nat) (pays : Nat → List Int)
    (k : Nat) (st : FwifState) (h0 : st.spectrum_count = 0)
    (h1 : 1 ≤ st.scan) :
    ∀ m, (runActions times pays st k).find?
        (fun x => decide (x.typ = MsgT.spectrum)) = some m →
      m.record = 1 ∧ 1 ≤ m.scan := by
  intro m hm
  cases k with
  | zero => simp [runActions] at hm
  | succ k =>
      by_cases hmax : st.max_count = 0
      · have hall := runActions_max_zero (k + 1) times pays st hmax
        have hmem : m ∈ runActions times pays st (k + 1) :=
          List.mem_of_find?_eq_some hm
        have hns := hall m hmem
        have hpred := List.find?_some hm
        rw [hns] at hpred
        simp at hpred
      · have hlt : ¬ st.max_count < st.spectrum_count + 1 := by omega
        rw [runActions, action_spectrum_eq (times 0) (pays 0) st hlt] at hm
        rw [List.find?_cons_of_pos _ (by simp)] at hm
        have hme : m = { typ := MsgT.spectrum, name := st.name, time := times 0,
                         scan := st.scan, record := st.spectrum_count + 1,
                         data := some (pays 0) } := (Option.some.inj hm).symm
        subst hme
        exact ⟨by simp [h0], by simpa using h1⟩

end FwifLemmas

/-! ### Behaviour of the client-side scan tracker -/

section ClientLemmas

theorem mem_keys_of_lookupA {α : Type} {l : List (Nat × α)} {k : Nat} {v : α}
    (h : lookupA l k = some v) : k ∈ l.map Prod.fst :=
  List.mem_map_of_mem Prod.fst (lookupA_eq_some_mem h)

theorem start_handler_some {st : ClientState} {e : CEvent}
    {u₀ : UnitScanState} (hu : lookupA st.scans e.name = some u₀) :
    SAOclient.start_handler st e
      = some { scans := updateAssoc st.scans e.name
                 (match e.typ with
                  | CTyp.done =>
                      { u₀ with scan := some e.scan, done := true,
                                time := some e.time }
                  | CTyp.record =>
                      { u₀ with scan := some e.scan, done := false }
                  | CTyp.other => { u₀ with scan := some e.scan }),
               combinerQueue :=
                 match e.typ with
                 | CTyp.record => st.combinerQueue ++ [e]
                 | _ => st.combinerQueue } := by
  unfold SAOclient.start_handler
  rw [hu]
  cases e.typ <;> rfl

theorem doneAfter_nil (b : Bool) (u : Nat) : doneAfter b [] u = b := rfl

theorem doneAfter_cons (b : Bool) (e : CEvent) (t : List CEvent) (u : Nat) :
    doneAfter b (e :: t) u
      = doneAfter
          (if e.name = u then
            match e.typ with
            | CTyp.done => true
            | CTyp.record => false
            | CTyp.other => b
           else b) t u := rfl

theorem doneAfter_append_singleton (b : Bool) (t : List CEvent) (e : CEvent)
    (u : Nat) :
    doneAfter b (t ++ [e]) u
      = (if e.name = u then
          match e.typ with
          | CTyp.done => true
          | CTyp.record => false
          | CTyp.other => doneAfter b t u
         else doneAfter b t u) := by
  simp [doneAfter, List.foldl_append]

theorem lastCTyp_append_singleton (t : List CEvent) (e : CEvent) (u : Nat) :
    lastCTyp (t ++ [e]) u
      = (if e.name = u then some e.typ else lastCTyp t u) := by
  simp [lastCTyp, List.foldl_append]

theorem doneAfter_eq_lastCTyp (evs : List CEvent) (u : Nat)
    (htyp : ∀ e ∈ evs, e.typ = CTyp.done ∨ e.typ = CTyp.record) :
    (doneAfter false evs u = true ↔ lastCTyp evs u = some CTyp.done) := by
  induction evs using List.reverseRecOn with
  | nil => simp [doneAfter, lastCTyp]
  | append_singleton t e ih =>
      have htyp' : ∀ e' ∈ t, e'.typ = CTyp.done ∨ e'.typ = CTyp.record :=
        fun e' he' => htyp e' (List.mem_append_left _ he')
      have hte := htyp e (List.mem_append_right _ (List.mem_singleton_self e))
      rw [doneAfter_append_singleton, lastCTyp_append_singleton]
      by_cases hn : e.name = u
      · rw [if_pos hn, if_pos hn]
        rcases hte with ht | ht <;> rw [ht] <;> simp
      · rw [if_neg hn, if_neg hn]
        exact ih htyp'

theorem processClient_done (evs : List CEvent) :
    ∀ st st' : ClientState,
      (∀ e ∈ evs, e.name ∈ st.scans.map Prod.fst) →
      processClient st evs = some st' →
      st'.scans.map Prod.fst = st.scans.map Prod.fst ∧
      ∀ u s0, lookupA st.scans u = some s0 →
        ∃ s1, lookupA st'.scans u = some s1 ∧
          s1.done = doneAfter s0.done evs u := by
  induction evs with
  | nil =>
      intro st st' _ hrun
      rw [processClient] at hrun
      cases hrun
      exact ⟨rfl, fun u s0 hs0 => ⟨s0, hs0, rfl⟩⟩
  | cons e t ih =>
      intro st st' hmem hrun
      have he : e.name ∈ st.scans.map Prod.fst :=
        hmem e (List.mem_cons_self e t)
      obtain ⟨u₀, hu₀⟩ := lookupA_of_mem_keys he
      rw [processClient, start_handler_some hu₀] at hrun
      set st1 : ClientState :=
        { scans := updateAssoc st.scans e.name
            (match e.typ with
             | CTyp.done =>
                 { u₀ with scan := some e.scan, done := true,
                           time := some e.time }
             | CTyp.record => { u₀ with scan := some e.scan, done := false }
             | CTyp.other => { u₀ with scan := some e.scan }),
          combinerQueue :=
            match e.typ with
            | CTyp.record => st.combinerQueue ++ [e]
            | _ => st.combinerQueue } with hst1
      have hkeys1 : st1.scans.map Prod.fst = st.scans.map Prod.fst := by
        rw [hst1]
        dsimp only
        rw [keys_updateAssoc, if_pos he]
      have hmem' : ∀ e' ∈ t, e'.name ∈ st1.scans.map Prod.fst := by
        intro e' he'
        rw [hkeys1]
        exact hmem e' (List.mem_cons_of_mem e he')
      obtain ⟨hkeys2, hdone⟩ := ih st1 st' hmem' hrun
      refine ⟨by rw [hkeys2, hkeys1], ?_⟩
      intro u s0 hs0
      by_cases hue : u = e.name
      · subst hue
        have hs00 : s0 = u₀ := by
          rw [hu₀] at hs0
          exact (Option.some.inj hs0).symm
        have hlook1 : lookupA st1.scans e.name
            = some (match e.typ with
                    | CTyp.done =>
                        { u₀ with scan := some e.scan, done := true,
                                  time := some e.time }
                    | CTyp.record =>
                        { u₀ with scan := some e.scan, done := false }
                    | CTyp.other => { u₀ with scan := some e.scan }) := by
          rw [hst1]
          dsimp only
          exact lookupA_updateAssoc_self _ _ _
        obtain ⟨s1, hs1, hd⟩ := hdone e.name _ hlook1
        refine ⟨s1, hs1, ?_⟩
        rw [hd, doneAfter_cons, if_pos rfl, hs00]
        cases e.typ <;> rfl
      · have hlook1 : lookupA st1.scans u = lookupA st.scans u := by
          rw [hst1]
          dsimp only
          exact lookupA_updateAssoc_ne _ _ hue
        obtain ⟨s1, hs1, hd⟩ := hdone u s0 (by rw [hlook1]; exact hs0)
        refine ⟨s1, hs1, ?_⟩
        rw [hd, doneAfter_cons, if_neg (fun hh => hue hh.symm)]

theorem scan_finished_iff_lookup (st : ClientState)
    (hnd : (st.scans.map Prod.fst).Nodup) :
    SAOclient.scan_finished st = true ↔
      ∀ u ∈ st.scans.map Prod.fst, ∀ v, lookupA st.scans u = some v →
        v.done = true := by
  unfold SAOclient.scan_finished
  rw [List.all_eq_true]
  constructor
  · intro h u hu v hv
    exact h _ (lookupA_eq_some_mem hv)
  · intro h p hp
    exact h p.1 (List.mem_map_of_mem Prod.fst hp) p.2
      (lookupA_eq_of_mem_nodup hnd hp)

theorem keys_init_scans (names : List Nat) :
    (SAOclient.init names).scans.map Prod.fst = names := by
  induction names with
  | nil => rfl
  | cons n t ih =>
      simp only [SAOclient.init, List.map_cons] at ih ⊢
      rw [ih]

theorem lookupA_init_scans (names : List Nat) (u : Nat) (h : u ∈ names) :
    lookupA (SAOclient.init names).scans u
      = some ⟨false, none, none, none⟩ := by
  induction names with
  | nil => simp at h
  | cons n t ih =>
      rcases List.mem_cons.mp h with h1 | h1
      · subst h1
        simp [SAOclient.init, lookupA]
      · by_cases hn : n = u
        · subst hn
          simp [SAOclient.init, lookupA]
        · have := ih h1
          simp only [SAOclient.init, List.map_cons] at this ⊢
          rw [lookupA, if_neg hn]
          exact this

end ClientLemmas

/-! ### Support lemmas for the claims -/

section ClaimSupport

theorem mem_keyEvents {evs : List Msg} {s r : Nat} {e : Msg}
    (h : e ∈ keyEvents evs s r) :
    e ∈ evs ∧ e.typ = MsgT.spectrum ∧ e.scan = s ∧ e.record = r := by
  have h1 := List.mem_filter.mp h
  refine ⟨h1.1, ?_⟩
  have h2 := h1.2
  simp only [Bool.and_eq_true, decide_eq_true_eq, beq_iff_eq] at h2
  exact ⟨h2.1.1, h2.1.2, h2.2⟩

theorem count_map_record (ms : List Composite) (r : Nat) :
    (ms.map Composite.record).count r
      = (ms.filter (fun m => m.record == r)).length := by
  induction ms with
  | nil => rfl
  | cons m ms ih =>
      by_cases he : m.record = r
      · have hb : (m.record == r) = true := by simpa using he
        simp [List.count_cons, List.filter_cons, hb, he, ih]
      · have hb : (m.record == r) = false := by simpa using he
        simp [List.count_cons, List.filter_cons, hb, he, ih]

end ClaimSupport

/-! ### The claims -/

/-- C1: for a configuration of at least one unit in which every unit
contributes exactly one spectrum message for each record 1..R of scan
`s` — in any interleaving, with arbitrary other messages (boundaries,
other scans) mixed in — the combiner hands exactly R composites for scan
`s` to the notifier, each carrying exactly one contribution per
configured unit. -/
theorem C1_complete_scans (dsplist : List Nat) (evs : List Msg) (s R : Nat)
    (hN : 1 ≤ dsplist.length) (hnd : dsplist.Nodup)
    (hone : ∀ u ∈ dsplist, ∀ r : Nat, 1 ≤ r → r ≤ R →
      ((keyEvents evs s r).filter (fun e => e.name == u)).length = 1)
    (hvalid : ∀ e ∈ evs, e.typ = MsgT.spectrum → e.scan = s →
      e.name ∈ dsplist ∧ 1 ≤ e.record ∧ e.record ≤ R) :
    ((runCombiner dsplist evs).emitted.filter (fun m => m.scan == s)).length = R
    ∧ ∀ m ∈ (runCombiner dsplist evs).emitted.filter (fun m => m.scan == s),
        m.data.length = dsplist.length
        ∧ (m.data.map Prod.fst).Perm dsplist := by
  have hperm : ∀ r : Nat, 1 ≤ r → r ≤ R →
      ((keyEvents evs s r).map Msg.name).Perm dsplist := by
    intro r h1 h2
    rw [List.perm_iff_count]
    intro u
    by_cases hu : u ∈ dsplist
    · rw [count_map_name, hone u hu r h1 h2, List.count_eq_one_of_mem hnd hu]
    · rw [count_map_name, List.count_eq_zero_of_not_mem hu,
          List.length_eq_zero.mpr]
      refine List.filter_eq_nil_iff.mpr ?_
      intro e he hbe
      obtain ⟨hmem, ht, hsc, _⟩ := mem_keyEvents he
      have hind := (hvalid e hmem ht hsc).1
      have hne : e.name = u := by simpa using hbe
      exact hu (hne ▸ hind)
  have hcount : ∀ r : Nat, countEmitted (runCombiner dsplist evs) s r
      = if 1 ≤ r ∧ r ≤ R then 1 else 0 := by
    intro r
    rw [countEmitted_runCombiner]
    by_cases hr : 1 ≤ r ∧ r ≤ R
    · rw [if_pos hr]
      have hp := hperm r hr.1 hr.2
      have hlen : (keyEvents evs s r).length = dsplist.length := by
        have h3 := hp.length_eq
        rw [List.length_map] at h3
        exact h3
      have hn2 : ((keyEvents evs s r).map Msg.name).Nodup :=
        hp.nodup_iff.mpr hnd
      rw [emitsForAux_of_nodup_names _ _ _ hn2 (by simp), if_pos]
      simp only [List.length_nil, Nat.zero_add, hlen]
      omega
    · rw [if_neg hr]
      have hke : keyEvents evs s r = [] := by
        refine List.filter_eq_nil_iff.mpr ?_
        intro e he hbe
        simp only [Bool.and_eq_true, decide_eq_true_eq, beq_iff_eq] at hbe
        obtain ⟨⟨ht, hsc⟩, hrec⟩ := hbe
        have hrng := (hvalid e he ht hsc).2
        omega
      rw [hke]
      rfl
  have hcountE : ∀ r : Nat,
      (((runCombiner dsplist evs).emitted.filter
        (fun m => m.scan == s)).map Composite.record).count r
      = countEmitted (runCombiner dsplist evs) s r := by
    intro r
    rw [count_map_record, List.filter_filter, countEmitted]
    congr 1
    apply List.filter_congr
    intro m _
    rw [Bool.and_comm]
  have hpermE : (((runCombiner dsplist evs).emitted.filter
      (fun m => m.scan == s)).map Composite.record).Perm (List.range' 1 R) := by
    rw [List.perm_iff_count]
    intro r
    rw [hcountE, hcount]
    by_cases hr : 1 ≤ r ∧ r ≤ R
    · rw [if_pos hr]
      have hmr : r ∈ List.range' 1 R := List.mem_range'_1.mpr ⟨hr.1, by omega⟩
      exact (List.count_eq_one_of_mem (List.nodup_range' 1 R) hmr).symm
    · rw [if_neg hr]
      have hmr : r ∉ List.range' 1 R := by
        intro hc
        have := List.mem_range'_1.mp hc
        omega
      exact (List.count_eq_zero_of_not_mem hmr).symm
  constructor
  · have h4 := hpermE.length_eq
    rw [List.length_map, List.length_range'] at h4
    exact h4
  · intro m hm
    have hm0 : m ∈ (runCombiner dsplist evs).emitted :=
      (List.mem_filter.mp hm).1
    have hms : m.scan = s := by
      have h5 := (List.mem_filter.mp hm).2
      simpa using h5
    obtain ⟨h1, h2, h3⟩ := emitted_spec dsplist evs m hm0
    refine ⟨h1, ?_⟩
    by_cases hr : 1 ≤ m.record ∧ m.record ≤ R
    · have hsub : m.data.map Prod.fst ⊆ dsplist := by
        intro k hk
        have hk2 := h3 k hk
        rw [hms] at hk2
        obtain ⟨e, he, hne⟩ := List.mem_map.mp hk2
        obtain ⟨hmem, ht, hsc, _⟩ := mem_keyEvents he
        exact hne ▸ (hvalid e hmem ht hsc).1
      have hsp := List.subperm_of_subset h2 hsub
      refine hsp.perm_of_length_le ?_
      rw [List.length_map, h1]
    · exfalso
      have hc := hcount m.record
      rw [if_neg hr] at hc
      have hmf : m ∈ (runCombiner dsplist evs).emitted.filter
          (fun x => x.scan == s && x.record == m.record) := by
        rw [List.mem_filter]
        exact ⟨hm0, by simp [hms]⟩
      have hpos : 0 < countEmitted (runCombiner dsplist evs) s m.record := by
        rw [countEmitted]
        exact List.length_pos.mpr (List.ne_nil_of_mem hmf)
      omega

/-- C1 witness: two units each delivering records 1 and 2 of scan 1 in
an interleaved order, with a boundary message mixed in. -/
theorem C1_complete_scans_witness :
    ((runCombiner [1, 2]
      [{ typ := MsgT.spectrum, name := 1, time := 0, scan := 1, record := 1,
         data := some [10] },
       { typ := MsgT.spectrum, name := 2, time := 1, scan := 1, record := 1,
         data := some [20] },
       { typ := MsgT.spectrum, name := 2, time := 2, scan := 1, record := 2,
         data := some [21] },
       { typ := MsgT.newscan, name := 2, time := 3, scan := 2, record := 0,
         data := none },
       { typ := MsgT.spectrum, name := 1, time := 4, scan := 1, record := 2,
         data := some [11] }]).emitted.filter
      (fun m => m.scan == 1)).length = 2 :=
  (C1_complete_scans [1, 2]
    [{ typ := MsgT.spectrum, name := 1, time := 0, scan := 1, record := 1,
       data := some [10] },
     { typ := MsgT.spectrum, name := 2, time := 1, scan := 1, record := 1,
       data := some [20] },
     { typ := MsgT.spectrum, name := 2, time := 2, scan := 1, record := 2,
       data := some [21] },
     { typ := MsgT.newscan, name := 2, time := 3, scan := 2, record := 0,
       data := none },
     { typ := MsgT.spectrum, name := 1, time := 4, scan := 1, record := 2,
       data := some [11] }] 1 2 (by decide) (by decide)
    (by
      intro u hu r h1 h2
      interval_cases r <;> fin_cases hu <;> decide)
    (by decide)).1

/-- C8: if no subscriber callback is registered when a composite record
is handed to the notifier, `process_data` logs the event and discards
the composite: it raises no error, invokes no callback, and leaves the
combiner's aggregation state unchanged, with no buffering of the
composite (shown for `RoachCombiner.process_data` with no callback and
for the `DataCombiner.process_data` base method). -/
theorem C8_missing_subscriber (st : CombinerState) (msg : Composite) :
    (RoachCombiner.process_data none st msg).1 = st
    ∧ (RoachCombiner.process_data none st msg).2.invoked = []
    ∧ (RoachCombiner.process_data none st msg).2.raised = false
    ∧ (RoachCombiner.process_data none st msg).2.logged ≠ []
    ∧ (DataCombiner.process_data st msg).1 = st
    ∧ (DataCombiner.process_data st msg).2.invoked = []
    ∧ (DataCombiner.process_data st msg).2.raised = false
    ∧ (DataCombiner.process_data st msg).2.logged = [LogLevel.info] := by
  refine ⟨rfl, rfl, rfl, ?_, rfl, rfl, rfl, rfl⟩
  simp [RoachCombiner.process_data]

/-- C9: constructing a `DataCombiner` with a missing, `None` or empty
processor list raises `RuntimeError` before any state is initialized, so
every successfully constructed combiner has a non-empty `dsplist`. -/
theorem C9_init_requires_dsplist :
    (∀ dsplist : Option (List Nat),
       (∃ r, DataCombiner.init dsplist = Except.ok r)
         ↔ ∃ l, dsplist = some l ∧ l ≠ [])
    ∧ ∀ (dsplist : Option (List Nat)) (l : List Nat) (st : CombinerState),
        DataCombiner.init dsplist = Except.ok (l, st) → l ≠ [] := by
  constructor
  · intro dsplist
    constructor
    · intro ⟨r, hr⟩
      match dsplist with
      | none => simp [DataCombiner.init] at hr
      | some l =>
          refine ⟨l, rfl, ?_⟩
          intro hl
          subst hl
          simp [DataCombiner.init] at hr
    · rintro ⟨l, rfl, hl⟩
      refine ⟨(l, DataCombiner.initState), ?_⟩
      rw [DataCombiner.init, if_neg (by simpa using hl)]
  · intro dsplist l st h
    match dsplist with
    | none => exact Except.noConfusion h
    | some l' =>
        rw [DataCombiner.init] at h
        by_cases hl : l'.isEmpty
        · rw [if_pos hl] at h
          exact Except.noConfusion h
        · rw [if_neg hl] at h
          have hp := Except.ok.inj h
          have hll : l' = l := congrArg Prod.fst hp
          intro hnil
          apply hl
          rw [hll, hnil]
          rfl

/-- C9 witness: a one-element processor list is accepted. -/
theorem C9_init_requires_dsplist_witness :
    ∃ r, DataCombiner.init (some [3]) = Except.ok r :=
  (C9_init_requires_dsplist.1 (some [3])).mpr ⟨[3], rfl, by decide⟩

/-- C4 counterexample: the claim says the `ScanBoundary` record carries
the scan value from before the scan increment; for a unit at scan 1
whose counter has exceeded `max_count`, `action` emits the boundary
message with scan 2, not 1 (the code increments `self.scan` before
building the message). -/
theorem C4_counterexample :
    (SAOfwif.action 5 [] ⟨0, 1, 2, 2, false⟩).2.typ = MsgT.newscan
    ∧ (SAOfwif.action 5 [] ⟨0, 1, 2, 2, false⟩).2.scan = 2
    ∧ ¬ (SAOfwif.action 5 [] ⟨0, 1, 2, 2, false⟩).2.scan = 1 := by
  decide

/-- C4 (amended): when the incremented counter exceeds `max_count`, the
cycle emits exactly one `"new scan"` (boundary) record — whose scan
field is the value after the increment, i.e. the old scan plus one —
increments the scan, resets the counter to 0 and suspends the thread; no
spectrum record is emitted on that cycle. -/
theorem C4_boundary_cycle (now : Nat) (accum : List Int) (st : FwifState)
    (h : st.max_count < st.spectrum_count + 1) :
    (SAOfwif.action now accum st).2.typ = MsgT.newscan
    ∧ (SAOfwif.action now accum st).2.scan = st.scan + 1
    ∧ (SAOfwif.action now accum st).2.record = 0
    ∧ (SAOfwif.action now accum st).2.data = none
    ∧ (SAOfwif.action now accum st).1.scan = st.scan + 1
    ∧ (SAOfwif.action now accum st).1.spectrum_count = 0
    ∧ (SAOfwif.action now accum st).1.suspended = true
    ∧ (SAOfwif.action now accum st).2.typ ≠ MsgT.spectrum := by
  rw [action_boundary_eq now accum st h]
  exact ⟨rfl, rfl, rfl, rfl, rfl, rfl, rfl, by simp⟩

/-- C4 witness: the amended theorem at a concrete unit state. -/
theorem C4_boundary_cycle_witness :
    (SAOfwif.action 5 [] ⟨0, 1, 2, 2, false⟩).2.typ = MsgT.newscan
    ∧ (SAOfwif.action 5 [] ⟨0, 1, 2, 2, false⟩).2.scan = 1 + 1 := by
  have h := C4_boundary_cycle 5 [] ⟨0, 1, 2, 2, false⟩ (by decide)
  exact ⟨h.1, h.2.1⟩

/-- C10: `SAObackend.start(n_accums, ...)` is applied to every unit; on
each unit it sets the scan to 1 if it was 0 (otherwise leaves it),
sets `max_count` to `n_accums` and resets the counter to 0; as a
consequence the first spectrum message the unit emits afterwards (if any)
carries record index 1 and a scan of at least 1. -/
theorem C10_start (n : Nat) (roaches : List FwifState) (st : FwifState)
    (times : Nat → Nat) (pays : Nat → List Int) (k : Nat)
    (hmem : st ∈ roaches) :
    SAObackend.start n st ∈ SAObackend.startAll n roaches
    ∧ (SAObackend.start n st).scan = (if st.scan = 0 then 1 else st.scan)
    ∧ (SAObackend.start n st).max_count = n
    ∧ (SAObackend.start n st).spectrum_count = 0
    ∧ ∀ m, (runActions times pays (SAObackend.start n st) k).find?
          (fun x => decide (x.typ = MsgT.spectrum)) = some m →
        m.record = 1 ∧ 1 ≤ m.scan := by
  have hscan : (SAObackend.start n st).scan = (if st.scan = 0 then 1 else st.scan) := by
    by_cases h0 : st.scan = 0 <;> simp [SAObackend.start, h0]
  refine ⟨List.mem_map_of_mem _ hmem, hscan, rfl, rfl, ?_⟩
  apply find_spectrum_runActions times pays k _ rfl
  rw [hscan]
  by_cases h0 : st.scan = 0
  · rw [if_pos h0]
  · rw [if_neg h0]
    omega

/-- C10 witness: starting a unit that still has scan 0. -/
theorem C10_start_witness :
    SAObackend.start 3 ⟨0, 0, 5, 7, true⟩
        ∈ SAObackend.startAll 3 [⟨0, 0, 5, 7, true⟩]
    ∧ (SAObackend.start 3 ⟨0, 0, 5, 7, true⟩).spectrum_count = 0 := by
  have h := C10_start 3 [⟨0, 0, 5, 7, true⟩] ⟨0, 0, 5, 7, true⟩
    (fun _ => 0) (fun _ => []) 2 (by decide)
  exact ⟨h.1, h.2.2.2.1⟩

/-- C2 counterexample: with one configured unit, a second spectrum
message for the already complete key (1, 1) makes `combine_data` hand a
second composite for that key to the notifier, so the at-most-once claim
fails for this input sequence. -/
theorem C2_counterexample :
    countEmitted
      (runCombiner [7]
        [{ typ := MsgT.spectrum, name := 7, time := 0, scan := 1,
           record := 1, data := some [5] },
         { typ := MsgT.spectrum, name := 7, time := 1, scan := 1,
           record := 1, data := some [6] }]) 1 1 = 2 := by
  decide

/-- C2 (amended): the combiner hands a composite for a key to the
notifier at most once provided no unit contributes more than one
spectrum message for that key; a duplicate arriving after the key is
complete triggers a further emission (see the counterexample). -/
theorem C2_at_most_once (dsplist : List Nat) (evs : List Msg)
    (hdup : ∀ s r u : Nat,
      ((keyEvents evs s r).filter (fun e => e.name == u)).length ≤ 1) :
    ∀ s r : Nat, countEmitted (runCombiner dsplist evs) s r ≤ 1 := by
  intro s r
  rw [countEmitted_runCombiner]
  have hnd : ((keyEvents evs s r).map Msg.name).Nodup := by
    rw [List.nodup_iff_count_le_one]
    intro u
    rw [count_map_name]
    exact hdup s r u
  rw [emitsForAux_of_nodup_names _ _ _ hnd (by simp)]
  split <;> omega

/-- C2 witness: a single spectrum message yields at most one handoff. -/
theorem C2_at_most_once_witness :
    countEmitted
      (runCombiner [7]
        [{ typ := MsgT.spectrum, name := 7, time := 0, scan := 1,
           record := 1, data := some [5] }]) 1 1 ≤ 1 := by
  refine C2_at_most_once [7] _ ?_ 1 1
  intro s r u
  have h2 : (keyEvents
      [{ typ := MsgT.spectrum, name := 7, time := 0, scan := 1,
         record := 1, data := some [5] }] s r).length ≤ 1 :=
    List.length_filter_le _ _
  have h1 := List.length_filter_le (fun e => e.name == u)
    (keyEvents
      [{ typ := MsgT.spectrum, name := 7, time := 0, scan := 1,
         record := 1, data := some [5] }] s r)
  omega

/-- C3 counterexample: after the spectrum message that completes key
(1, 1), the combiner has handed the composite to the notifier, yet the
pending aggregate entry for (1, 1) is still present in `spectra_dict`
with its full contribution dict — the claim says the entry is removed at
that moment. -/
theorem C3_counterexample :
    (runCombiner [7]
      [{ typ := MsgT.spectrum, name := 7, time := 0, scan := 1,
         record := 1, data := some [5] }]).emitted.length = 1
    ∧ agg (runCombiner [7]
        [{ typ := MsgT.spectrum, name := 7, time := 0, scan := 1,
           record := 1, data := some [5] }]) 1 1 = [(7, some [5])] := by
  decide

/-- C3 (amended): when a spectrum message makes the contribution set for
its key as large as the configured unit set, `combine_data` builds the
composite and hands it to the notifier, but the pending aggregate entry
is not removed: after the emitting step the key still maps to its full
contribution dict in `spectra_dict`. -/
theorem C3_emit_keeps_entry (dsplist : List Nat) (st : CombinerState)
    (e : Msg) (hsp : e.typ = MsgT.spectrum)
    (hfull : (updateAssoc (agg st e.scan e.record) e.name e.data).length
      = dsplist.length) :
    (DataCombiner.combine_data dsplist st e).emitted
      = st.emitted ++ [⟨e.scan, e.record,
          updateAssoc (lookupD (lookupD st.timedata e.scan []) e.record [])
            e.name e.time,
          updateAssoc (agg st e.scan e.record) e.name e.data⟩]
    ∧ agg (DataCombiner.combine_data dsplist st e) e.scan e.record
        = updateAssoc (agg st e.scan e.record) e.name e.data := by
  refine ⟨?_, agg_combine_data_self dsplist st e hsp⟩
  rw [emitted_combine_data dsplist st e hsp, if_pos hfull]

/-- C3 witness: the amended theorem on an empty initial state with one
configured unit. -/
theorem C3_emit_keeps_entry_witness :
    agg (DataCombiner.combine_data [7] DataCombiner.initState
      { typ := MsgT.spectrum, name := 7, time := 0, scan := 1, record := 1,
        data := some [5] }) 1 1 = [(7, some [5])] := by
  have h := C3_emit_keeps_entry [7] DataCombiner.initState
    { typ := MsgT.spectrum, name := 7, time := 0, scan := 1, record := 1,
      data := some [5] } rfl (by decide)
  exact h.2.trans (by decide)

/-- C7: for any processed event sequence and any key, the pending
aggregate holds at most one contribution per unit — equal to the data of
the most recently processed spectrum message for that key and unit, a
later payload replacing an earlier one, never an appended pair. -/
theorem C7_overwrite (dsplist : List Nat) (evs : List Msg) (s r u : Nat) :
    (agg (runCombiner dsplist evs) s r).filter (fun p => p.1 == u)
      = (match lastDataFor evs s r u with
         | some d => [(u, d)]
         | none => []) := by
  rw [agg_runCombiner,
      filter_fst_eq_match_lookupA _ u (foldAssoc_keys_nodup _ _ (by simp)),
      lookupA_foldAssoc]
  have h0 : lookupA ([] : List (Nat × Payload)) u = none := rfl
  rw [h0]
  simp only [lastDataFor]
  cases List.foldl (fun a e => if e.name = u then some e.data else a) none
    (keyEvents evs s r) <;> rfl

/-- C6: every composite handed to the notifier has exactly as many
contributions as there are configured units, and a key to which fewer
distinct units than that have contributed spectrum messages never
produces a composite. -/
theorem C6_no_partial_composites (dsplist : List Nat) (evs : List Msg) :
    (∀ m ∈ (runCombiner dsplist evs).emitted,
        m.data.length = dsplist.length)
    ∧ ∀ s r : Nat,
        ((keyEvents evs s r).map Msg.name).dedup.length < dsplist.length →
        countEmitted (runCombiner dsplist evs) s r = 0 := by
  constructor
  · intro m hm
    exact (emitted_spec dsplist evs m hm).1
  · intro s r hlt
    rw [countEmitted_runCombiner]
    exact emitsForAux_eq_zero_of_few dsplist.length
      ((keyEvents evs s r).map Msg.name) _ [] (by simp) (by simp)
      (fun e he => List.mem_map_of_mem Msg.name he) hlt

theorem start_handler_record {st : ClientState} {e : CEvent}
    {u₀ : UnitScanState} (hu : lookupA st.scans e.name = some u₀)
    (ht : e.typ = CTyp.record) :
    SAOclient.start_handler st e
      = some { scans := updateAssoc st.scans e.name
                 { u₀ with scan := some e.scan, done := false },
               combinerQueue := st.combinerQueue ++ [e] } := by
  rw [start_handler_some hu, ht]

/-- C5: `scan_finished` is true iff the done flag of every configured
unit is set, i.e. iff every unit's last processed callback message was a
scan boundary (`"done"`); handling a spectrum-derived (`"record"`)
message for any configured unit clears that unit's flag, so
`scan_finished` is false immediately afterwards. -/
theorem C5_scan_finished (names : List Nat) (evs : List CEvent)
    (st : ClientState) (hnd : names.Nodup)
    (hmem : ∀ e ∈ evs, e.name ∈ names)
    (htyp : ∀ e ∈ evs, e.typ = CTyp.done ∨ e.typ = CTyp.record)
    (hrun : processClient (SAOclient.init names) evs = some st) :
    (SAOclient.scan_finished st = true
      ↔ ∀ u ∈ names, lastCTyp evs u = some CTyp.done)
    ∧ ∀ (e : CEvent) (st' : ClientState),
        e.typ = CTyp.record → e.name ∈ names →
        SAOclient.start_handler st e = some st' →
        SAOclient.scan_finished st' = false := by
  have keys0 := keys_init_scans names
  have hmem' : ∀ e ∈ evs, e.name ∈ (SAOclient.init names).scans.map Prod.fst := by
    intro e he
    rw [keys0]
    exact hmem e he
  obtain ⟨hkeys, hdone⟩ :=
    processClient_done evs (SAOclient.init names) st hmem' hrun
  rw [keys0] at hkeys
  have hndst : (st.scans.map Prod.fst).Nodup := by
    rw [hkeys]
    exact hnd
  constructor
  · constructor
    · intro hfin u hu
      obtain ⟨s1, hs1, hd⟩ := hdone u _ (lookupA_init_scans names u hu)
      have hdtrue := (scan_finished_iff_lookup st hndst).mp hfin u
        (by rw [hkeys]; exact hu) s1 hs1
      rw [hd] at hdtrue
      exact (doneAfter_eq_lastCTyp evs u htyp).mp hdtrue
    · intro hlast
      apply (scan_finished_iff_lookup st hndst).mpr
      intro u hu v hv
      have hu' : u ∈ names := by
        rw [← hkeys]
        exact hu
      obtain ⟨s1, hs1, hd⟩ := hdone u _ (lookupA_init_scans names u hu')
      have hv1 : v = s1 := by
        rw [hv] at hs1
        exact Option.some.inj hs1
      rw [hv1, hd]
      exact (doneAfter_eq_lastCTyp evs u htyp).mpr (hlast u hu')
  · intro e st' het hename hsh
    have hmm0 : e.name ∈ st.scans.map Prod.fst := by
      rw [hkeys]
      exact hename
    obtain ⟨u₀, hu₀⟩ := lookupA_of_mem_keys hmm0
    rw [start_handler_record hu₀ het] at hsh
    have hst' := Option.some.inj hsh
    have hlook : lookupA st'.scans e.name
        = some { u₀ with scan := some e.scan, done := false } := by
      rw [← hst']
      exact lookupA_updateAssoc_self _ _ _
    have hpair := lookupA_eq_some_mem hlook
    cases hfin : SAOclient.scan_finished st'
    · rfl
    · exfalso
      unfold SAOclient.scan_finished at hfin
      have hdp := List.all_eq_true.mp hfin _ hpair
      simp at hdp

/-- C5 witness: one unit, one boundary message. -/
theorem C5_scan_finished_witness :
    SAOclient.scan_finished
        { scans := [(0, { done := true, scan := some 1, record := none,
                          time := some 5 })],
          combinerQueue := [] } = true
      ↔ ∀ u ∈ [0], lastCTyp
          [{ name := 0, scan := 1, record := 0, time := 5,
             typ := CTyp.done }] u = some CTyp.done :=
  (C5_scan_finished [0]
    [{ name := 0, scan := 1, record := 0, time := 5, typ := CTyp.done }]
    { scans := [(0, { done := true, scan := some 1, record := none,
                      time := some 5 })],
      combinerQueue := [] }
    (by decide) (by decide) (by decide) (by decide)).1

/-- C6 witness: with two configured units, one unit alone never
completes a key (the stalling-unit scenario). -/
theorem C6_no_partial_composites_witness :
    countEmitted
      (runCombiner [1, 2]
        [{ typ := MsgT.spectrum, name := 1, time := 0, scan := 1,
           record := 1, data := some [4] }]) 1 1 = 0 :=
  (C6_no_partial_composites [1, 2] _).2 1 1 (by decide)

end ROACH1
